import Mathlib

/-!
Shallow embedding of the aggregation and reporting engine of the
Food-City supermarket system (`src/app.py`), together with proofs of the
specification claims about it.

Rows loaded from `sales.csv` are 4-field records `[branch_id, product_id,
amount, date]`; the analysis functions read `sale[0]`, `sale[1]`,
`int(sale[2])` and `sale[3]`.  A `Sale` below carries the string fields
and the integer value of the amount field.  Branch rows are
`[branch_id, name, location]`.
-/

structure Sale where
  branch_id : String
  product_id : String
  amount : Int
  date : String
deriving DecidableEq

structure Branch where
  branch_id : String
  name : String
  location : String
deriving DecidableEq

/-- Calendar date as produced by a successful `datetime.strptime`. -/
structure Date where
  year : Nat
  month : Nat
  day : Nat
deriving DecidableEq

/-! ## Date parsing (`parse_date`, app.py lines 201-207)

`datetime.strptime(s, '%Y-%m-%d')` compiles the format to the regex
`(?P<Y>\d\d\d\d)-(?P<m>1[0-2]|0[1-9]|[1-9])-(?P<d>3[01]|[12]\d|0[1-9]|[1-9])`,
requires the whole string to be consumed, and then builds a `datetime`,
which additionally validates `1 <= year <= 9999` and
`day <= days_in_month(year, month)`.  Because the separators are
non-digit characters, this is equivalent to splitting on the separator
and checking each all-digit field: the year field is exactly 4 digits,
month and day fields are 1-2 digits with values in 1..12 resp. 1..31. -/

def isDigitChar (c : Char) : Bool := 48 ≤ c.toNat && c.toNat ≤ 57

def digitVal (c : Char) : Nat := c.toNat - 48

def fieldNat (cs : List Char) : Nat := cs.foldl (fun acc c => 10 * acc + digitVal c) 0

def splitOnChar (sep : Char) : List Char → List (List Char)
  | [] => [[]]
  | c :: cs =>
    if c = sep then [] :: splitOnChar sep cs
    else
      match splitOnChar sep cs with
      | [] => [[c]]
      | g :: gs => (c :: g) :: gs

def isLeapYear (y : Nat) : Bool := y % 4 = 0 && (y % 100 ≠ 0 || y % 400 = 0)

def daysInMonth (y m : Nat) : Nat :=
  if m = 2 then (if isLeapYear y then 29 else 28)
  else if m = 4 || m = 6 || m = 9 || m = 11 then 30
  else 31

def isYearField (cs : List Char) : Bool := cs.length = 4 && cs.all isDigitChar

def isMonthField (cs : List Char) : Bool :=
  (cs.length = 1 || cs.length = 2) && cs.all isDigitChar
    && 1 ≤ fieldNat cs && fieldNat cs ≤ 12

def isDayField (cs : List Char) : Bool :=
  (cs.length = 1 || cs.length = 2) && cs.all isDigitChar
    && 1 ≤ fieldNat cs && fieldNat cs ≤ 31

/-- The range checks performed by the `datetime` constructor. -/
def mkValidDate (y m d : Nat) : Option Date :=
  if 1 ≤ y ∧ y ≤ 9999 ∧ 1 ≤ m ∧ m ≤ 12 ∧ 1 ≤ d ∧ d ≤ daysInMonth y m then
    some ⟨y, m, d⟩
  else none

inductive DateFmt where
  | iso
  | slash
deriving DecidableEq

/-- One attempt `datetime.strptime(date_str, fmt)` for
`fmt ∈ {'%Y-%m-%d', '%m/%d/%Y'}`; `none` models the `ValueError`. -/
def tryFormat (fmt : DateFmt) (s : String) : Option Date :=
  match fmt with
  | .iso =>
    match splitOnChar '-' s.toList with
    | [ys, ms, ds] =>
      if isYearField ys && isMonthField ms && isDayField ds then
        mkValidDate (fieldNat ys) (fieldNat ms) (fieldNat ds)
      else none
    | _ => none
  | .slash =>
    match splitOnChar '/' s.toList with
    | [ms, ds, ys] =>
      if isMonthField ms && isDayField ds && isYearField ys then
        mkValidDate (fieldNat ys) (fieldNat ms) (fieldNat ds)
      else none
    | _ => none

/-- The `for fmt in (...)` loop body of `parse_date`: return the first
successful parse, fall through on `ValueError`. -/
def parseFirst : List DateFmt → String → Option Date
  | [], _ => none
  | fmt :: fmts, s =>
    match tryFormat fmt s with
    | some d => some d
    | none => parseFirst fmts s

/-- `parse_date` (app.py lines 201-207): try `'%Y-%m-%d'` then
`'%m/%d/%Y'`; `none` models the final `raise ValueError`. -/
def parse_date (s : String) : Option Date := parseFirst [DateFmt.iso, DateFmt.slash] s

/-! ## Calendar arithmetic

`datetime` comparison and `timedelta` arithmetic on midnight datetimes
are day arithmetic on the proleptic-Gregorian ordinal
(`datetime.toordinal`, with `0001-01-01` having ordinal 1);
`datetime.weekday()` is `(ordinal - 1) % 7` with Monday = 0. -/

def daysBeforeYear (y : Nat) : Nat :=
  365 * (y - 1) + (y - 1) / 4 - (y - 1) / 100 + (y - 1) / 400

def daysBeforeMonth (y m : Nat) : Nat :=
  ((List.range (m - 1)).map (fun i => daysInMonth y (i + 1))).sum

def toOrdinal (dt : Date) : Nat :=
  daysBeforeYear dt.year + daysBeforeMonth dt.year dt.month + dt.day

def weekdayOfOrdinal (o : Nat) : Nat := (o - 1) % 7

/-! ## Formatting (`strftime('%Y-%m-%d')`, zero padded) -/

def digitChar (n : Nat) : Char := Char.ofNat (48 + n)

def pad2 (n : Nat) : List Char := [digitChar (n / 10 % 10), digitChar (n % 10)]

def pad4 (n : Nat) : List Char :=
  [digitChar (n / 1000 % 10), digitChar (n / 100 % 10),
   digitChar (n / 10 % 10), digitChar (n % 10)]

def formatISO (dt : Date) : String :=
  String.mk (pad4 dt.year ++ '-' :: pad2 dt.month ++ '-' :: pad2 dt.day)

def validDate (y m d : Nat) : Bool :=
  1 ≤ y && y ≤ 9999 && 1 ≤ m && m ≤ 12 && 1 ≤ d && d ≤ daysInMonth y m

/-- A valid date string in canonical zero-padded `YYYY-MM-DD` form. -/
def CanonicalISO (s : String) : Prop :=
  ∃ y m d, validDate y m d = true ∧ s = formatISO ⟨y, m, d⟩

/-! ## Branch monthly sales (`analyze_monthly_sales`, app.py lines 155-170)

`branch_sales = [int(sale[2]) for sale in sales_data if sale[0] == branch_id]`;
if the list is empty the function prints a no-data message and returns
(the `EmptyDataset` outcome, modelled as `none`), otherwise it plots the
list (modelled as `some branch_sales`). -/

def branchAmounts (branch_id : String) : List Sale → List Int
  | [] => []
  | sale :: rest =>
    if sale.branch_id == branch_id then sale.amount :: branchAmounts branch_id rest
    else branchAmounts branch_id rest

def analyze_monthly_sales (branch_id : String) (sales_data : List Sale) : Option (List Int) :=
  match branchAmounts branch_id sales_data with
  | [] => none
  | l => some l

/-! ## Product price analysis (`analyze_price`, app.py lines 173-198) -/

def productAmounts (product_id : String) : List Sale → List Int
  | [] => []
  | sale :: rest =>
    if sale.product_id == product_id then sale.amount :: productAmounts product_id rest
    else productAmounts product_id rest

/-- The four summary statistics printed by `analyze_price`
(`np.mean`, `np.max`, `np.min`, `np.median`). -/
structure PriceStats where
  mean : ℚ
  max : Int
  min : Int
  median : ℚ
deriving DecidableEq

/-- `np.mean`: sum divided by length (exact arithmetic model). -/
def ratMean (l : List Int) : ℚ := (l.sum : ℚ) / (l.length : ℚ)

def sortedInts (l : List Int) : List Int := l.mergeSort (fun a b => a ≤ b)

/-- `np.median`: middle element of the sorted data for odd length,
average of the two middle elements for even length. -/
def medianOf (l : List Int) : ℚ :=
  let s := sortedInts l
  let n := s.length
  if n % 2 = 1 then (s.getD (n / 2) 0 : Int)
  else ((s.getD (n / 2 - 1) 0 : Int) + (s.getD (n / 2) 0 : Int)) / 2

/-- Statistics block of `analyze_price` (app.py lines 182-185), applied
to a sequence of integers; `none` models the empty-data early return. -/
def reduceStats (values : List Int) : Option PriceStats :=
  match values with
  | [] => none
  | x :: xs =>
    some ⟨ratMean (x :: xs), xs.foldl max x, xs.foldl min x, medianOf (x :: xs)⟩

def analyze_price (product_id : String) (sales_data : List Sale) : Option PriceStats :=
  reduceStats (productAmounts product_id sales_data)

/-! ## Total sales (`analyze_total_sales_amount`, app.py lines 228-233) -/

def allAmounts : List Sale → List Int
  | [] => []
  | sale :: rest => sale.amount :: allAmounts rest

def analyze_total_sales_amount (sales_data : List Sale) : Int :=
  (allAmounts sales_data).sum

/-! ## Weekly sales (`analyze_weekly_sales`, app.py lines 209-225)

`current_date = datetime.today()` is a full datetime: a calendar date
together with the current time of day.  A datetime is modelled as a
pair of the proleptic ordinal of its date part and its time of day
(`tod`, in arbitrary sub-day units; 0 = midnight); `datetime`
comparison is lexicographic on this pair.
`week_start = current_date - timedelta(days=current_date.weekday())`
and `week_end = week_start + timedelta(days=6)` shift only the date
part and keep the reference's time of day, whereas
`datetime.strptime` produces midnight datetimes, so a parsed sale date
is the pair `(toOrdinal d, 0)`.  The list comprehension calls
`parse_date` on every sale, so a single unparseable date string aborts
the whole computation (`none`). -/

/-- `datetime` order: lexicographic on (date ordinal, time of day). -/
def dtLe (d1 t1 d2 t2 : Nat) : Bool := d1 < d2 || (d1 = d2 && t1 ≤ t2)

def weeklyAmounts (week_start week_end tod : Nat) : List Sale → Option (List Int)
  | [] => some []
  | sale :: rest =>
    match parse_date sale.date with
    | none => none
    | some d =>
      match weeklyAmounts week_start week_end tod rest with
      | none => none
      | some l =>
        if dtLe week_start tod (toOrdinal d) 0 && dtLe (toOrdinal d) 0 week_end tod then
          some (sale.amount :: l)
        else some l

def analyze_weekly_sales (refDay tod : Nat) (sales_data : List Sale) : Option (Int × ℚ) :=
  let week_start := refDay - weekdayOfOrdinal refDay
  let week_end := week_start + 6
  match weeklyAmounts week_start week_end tod sales_data with
  | none => none
  | some weekly_sales =>
    some (weekly_sales.sum, if weekly_sales.isEmpty then 0 else ratMean weekly_sales)

/-- Specification-side description of the kept records: a sale is kept
iff its parsed midnight date lies between `week_start` and `week_end`,
both carrying the reference's time of day. -/
def inWindow (week_start week_end tod : Nat) (sale : Sale) : Bool :=
  match parse_date sale.date with
  | some d => dtLe week_start tod (toOrdinal d) 0 && dtLe (toOrdinal d) 0 week_end tod
  | none => false

def keptAmounts (week_start week_end tod : Nat) (sales_data : List Sale) : List Int :=
  (sales_data.filter (inWindow week_start week_end tod)).map Sale.amount

/-! ## All-branches summary (`analyze_all_branches_monthly_sales`,
app.py lines 236-256)

A Python `dict` is modelled as an association list without duplicate
keys: `dictSet` is item assignment (replace in place, else append),
`dictAdd` is `m[k] += a` (`none` models the `KeyError`), `dictLookup`
is item access. -/

def dictLookup : List (String × Int) → String → Option Int
  | [], _ => none
  | (k', v') :: rest, k => if k' = k then some v' else dictLookup rest k

def dictSet : List (String × Int) → String → Int → List (String × Int)
  | [], k, v => [(k, v)]
  | (k', v') :: rest, k, v =>
    if k' = k then (k, v) :: rest else (k', v') :: dictSet rest k v

def dictAdd : List (String × Int) → String → Int → Option (List (String × Int))
  | [], _, _ => none
  | (k', v') :: rest, k, a =>
    if k' = k then some ((k', v' + a) :: rest)
    else (dictAdd rest k a).map (fun m' => (k', v') :: m')

/-- `monthly_sales_summary = {branch[0]: 0 for branch in branch_data}`. -/
def seedSummary (branch_data : List Branch) : List (String × Int) :=
  branch_data.foldl (fun m b => dictSet m b.branch_id 0) []

/-- The `for sale in sales_data: monthly_sales_summary[branch_id] += int(sale[2])`
loop; `.error b` models the `KeyError` raised on branch id `b`. -/
def buildSummary (m : List (String × Int)) : List Sale → Except String (List (String × Int))
  | [] => .ok m
  | sale :: rest =>
    match dictAdd m sale.branch_id sale.amount with
    | none => .error sale.branch_id
    | some m' => buildSummary m' rest

/-- Outcome of `analyze_all_branches_monthly_sales`: a `KeyError` from
the summation loop, the `ValueError` raised by
`branch_ids, sales_amounts = zip(*monthly_sales_summary.items())` when
the summary dict is empty, or the finished summary mapping. -/
inductive AllBranchesOutcome where
  | keyError (branch_id : String)
  | unpackError
  | ok (summary : List (String × Int))
deriving DecidableEq

def analyze_all_branches_monthly_sales (branch_data : List Branch)
    (sales_data : List Sale) : AllBranchesOutcome :=
  match buildSummary (seedSummary branch_data) sales_data with
  | .error b => .keyError b
  | .ok m => if m.isEmpty then .unpackError else .ok m

def AllBranchesOutcome.isOk : AllBranchesOutcome → Bool
  | .ok _ => true
  | _ => false

def AllBranchesOutcome.lookup : AllBranchesOutcome → String → Option Int
  | .ok m, k => dictLookup m k
  | _, _ => none

/-- Sum of the amounts of the sales recorded for branch id `k`. -/
def branchTotal (k : String) (sales_data : List Sale) : Int :=
  ((sales_data.filter (fun s => s.branch_id == k)).map Sale.amount).sum

/-! ## Basic list lemmas about the comprehensions -/

theorem allAmounts_eq_map (l : List Sale) : allAmounts l = l.map Sale.amount := by
  induction l with
  | nil => rfl
  | cons s rest ih => simp [allAmounts, ih]

theorem branchAmounts_eq_filter_map (b : String) (l : List Sale) :
    branchAmounts b l = (l.filter (fun s => s.branch_id == b)).map Sale.amount := by
  induction l with
  | nil => rfl
  | cons s rest ih =>
    by_cases h : s.branch_id = b <;> simp [branchAmounts, List.filter_cons, h, ih]

theorem productAmounts_eq_filter_map (p : String) (l : List Sale) :
    productAmounts p l = (l.filter (fun s => s.product_id == p)).map Sale.amount := by
  induction l with
  | nil => rfl
  | cons s rest ih =>
    by_cases h : s.product_id = p <;> simp [productAmounts, List.filter_cons, h, ih]

/-! ## Claim theorems -/

/-- Claim C4: `parse_date` attempts the accepted formats in the fixed
order `YYYY-MM-DD` first and then `MM/DD/YYYY`, returns the result of
the first format that parses successfully, and fails (raises the
unrecognized-format `ValueError`) if and only if neither format
matches. -/
theorem parse_date_format_order (s : String) :
    (∀ d, tryFormat DateFmt.iso s = some d → parse_date s = some d) ∧
    (tryFormat DateFmt.iso s = none → parse_date s = tryFormat DateFmt.slash s) ∧
    (parse_date s = none ↔
      tryFormat DateFmt.iso s = none ∧ tryFormat DateFmt.slash s = none) := by
  cases hiso : tryFormat DateFmt.iso s <;>
    cases hslash : tryFormat DateFmt.slash s <;>
      simp_all [parse_date, parseFirst]

/-- Witness for C4: on a slash-form date string, the ISO format fails
and `parse_date` returns whatever the slash format gives. -/
theorem parse_date_format_order_witness :
    parse_date "01/05/2024" = tryFormat DateFmt.slash "01/05/2024" :=
  (parse_date_format_order "01/05/2024").2.1 (by decide)

/-- Claim C5: `analyze_total_sales_amount` returns the sum of the
amount field over the entire sale log, and over an empty log it returns
0 (it is total: no empty-data failure is possible). -/
theorem total_sales_is_sum :
    analyze_total_sales_amount [] = 0 ∧
    ∀ sales_data : List Sale,
      analyze_total_sales_amount sales_data = (sales_data.map Sale.amount).sum := by
  refine ⟨rfl, fun sales_data => ?_⟩
  simp [analyze_total_sales_amount, allAmounts_eq_map]

/-- Claim C6: `analyze_monthly_sales` selects exactly the sales whose
branch id equals the given id over the entire log (no month filtering),
returns their amounts in the original log order (the canonical
order-preserving `filter`/`map`), and yields the no-data outcome
(`none`) exactly when no sale matches. -/
theorem branch_monthly_sales_spec (branch_id : String) (sales_data : List Sale) :
    (analyze_monthly_sales branch_id sales_data = none ↔
      ∀ s ∈ sales_data, s.branch_id ≠ branch_id) ∧
    ∀ l, analyze_monthly_sales branch_id sales_data = some l →
      l = (sales_data.filter (fun s => s.branch_id == branch_id)).map Sale.amount
        ∧ l ≠ [] := by
  unfold analyze_monthly_sales
  rw [branchAmounts_eq_filter_map]
  cases h : (sales_data.filter (fun s => s.branch_id == branch_id)).map Sale.amount with
  | nil =>
    simp only [List.map_eq_nil_iff, List.filter_eq_nil_iff] at h
    simp_all
  | cons x xs =>
    constructor
    · constructor
      · intro hnone; cases hnone
      · intro hall
        exfalso
        have : (sales_data.filter (fun s => s.branch_id == branch_id)) = [] := by
          apply List.filter_eq_nil_iff.mpr
          intro s hs
          simp [hall s hs]
        rw [this] at h
        cases h
    · intro l hl
      cases hl
      exact ⟨rfl, by simp⟩

/-- Witness for C6: a log with one matching and one non-matching sale
gives exactly the matching amount list, nonempty. -/
theorem branch_monthly_sales_spec_witness :
    [(100 : Int)] =
      ([⟨"1", "1", 100, "2024-01-05"⟩,
        (⟨"2", "1", 7, "2024-01-06"⟩ : Sale)].filter
          (fun s => s.branch_id == "1")).map Sale.amount ∧ [(100 : Int)] ≠ [] :=
  (branch_monthly_sales_spec "1"
    [⟨"1", "1", 100, "2024-01-05"⟩, ⟨"2", "1", 7, "2024-01-06"⟩]).2 [100] (by decide)

/-- Claim C8: `analyze_price` yields the no-data outcome (`none`)
exactly when no sale's product id equals the given id; otherwise it
computes statistics. -/
theorem product_price_empty_iff (product_id : String) (sales_data : List Sale) :
    analyze_price product_id sales_data = none ↔
      ∀ s ∈ sales_data, s.product_id ≠ product_id := by
  unfold analyze_price reduceStats
  rw [productAmounts_eq_filter_map]
  cases h : (sales_data.filter (fun s => s.product_id == product_id)).map Sale.amount with
  | nil =>
    simp only [List.map_eq_nil_iff, List.filter_eq_nil_iff] at h
    simp_all
  | cons x xs =>
    constructor
    · intro hnone; cases hnone
    · intro hall
      exfalso
      have : (sales_data.filter (fun s => s.product_id == product_id)) = [] := by
        apply List.filter_eq_nil_iff.mpr
        intro s hs
        simp [hall s hs]
      rw [this] at h
      cases h

/-- Witness for C8: a nonexistent product id yields the no-data
outcome. -/
theorem product_price_empty_iff_witness :
    analyze_price "nonexistent" [⟨"1", "1", 100, "2024-01-05"⟩] = none :=
  (product_price_empty_iff "nonexistent" [⟨"1", "1", 100, "2024-01-05"⟩]).mpr (by decide)

/-- Any bad date string anywhere in the log aborts `weeklyAmounts`. -/
theorem weeklyAmounts_none_of_bad_date (week_start week_end tod : Nat)
    (sales_data : List Sale) (s : Sale) (hs : s ∈ sales_data)
    (hbad : parse_date s.date = none) :
    weeklyAmounts week_start week_end tod sales_data = none := by
  induction sales_data with
  | nil => cases hs
  | cons a rest ih =>
    rcases List.mem_cons.mp hs with h | h
    · subst h
      simp [weeklyAmounts, hbad]
    · cases hp : parse_date a.date <;> simp [weeklyAmounts, hp, ih h]

/-- Claim C7: if any sale's date string matches neither accepted
format, the weekly analysis fails as a whole with the date-format
error, for every reference datetime (date ordinal and time of day):
the bad record is never skipped and no partial result is produced. -/
theorem weekly_sales_abort_on_bad_date (refDay tod : Nat) (sales_data : List Sale)
    (s : Sale) (hs : s ∈ sales_data) (hbad : parse_date s.date = none) :
    analyze_weekly_sales refDay tod sales_data = none := by
  have h := weeklyAmounts_none_of_bad_date (refDay - weekdayOfOrdinal refDay)
    (refDay - weekdayOfOrdinal refDay + 6) tod sales_data s hs hbad
  simp [analyze_weekly_sales, h]

/-- Witness for C7: one unparseable date aborts the weekly report even
though another sale parses fine (run at midday time 43200). -/
theorem weekly_sales_abort_on_bad_date_witness :
    analyze_weekly_sales 738888 43200
      [⟨"1", "1", 10, "2024-01-03"⟩, ⟨"1", "1", 20, "2024-13-05"⟩] = none :=
  weekly_sales_abort_on_bad_date 738888 43200
    [⟨"1", "1", 10, "2024-01-03"⟩, ⟨"1", "1", 20, "2024-13-05"⟩]
    ⟨"1", "1", 20, "2024-13-05"⟩ (by decide) (by decide)

/-- Claim C10: with an empty registered branch set the all-branches
report always raises: a key-lookup error on the first sale when at
least one sale is present, and an unpacking error on the empty summary
mapping when there are no sales. -/
theorem all_branches_empty_branch_set (s : Sale) (rest : List Sale) :
    analyze_all_branches_monthly_sales [] (s :: rest)
        = AllBranchesOutcome.keyError s.branch_id ∧
    analyze_all_branches_monthly_sales [] []
        = AllBranchesOutcome.unpackError := by
  exact ⟨rfl, rfl⟩

/-! ## Statistics bounds (claim C3) -/

theorem mem_le_foldl_max (xs : List Int) :
    ∀ (x : Int), ∀ y ∈ x :: xs, y ≤ xs.foldl max x := by
  induction xs with
  | nil =>
    intro x y hy
    simp only [List.mem_singleton] at hy
    simp [hy]
  | cons a rest ih =>
    intro x y hy
    simp only [List.foldl_cons]
    rcases List.mem_cons.mp hy with h | h
    · subst h
      exact le_trans (le_max_left y a) (ih (max y a) (max y a) (by simp))
    · rcases List.mem_cons.mp h with h' | h'
      · subst h'
        exact le_trans (le_max_right x y) (ih (max x y) (max x y) (by simp))
      · exact ih (max x a) y (List.mem_cons_of_mem _ h')

theorem foldl_min_le_mem (xs : List Int) :
    ∀ (x : Int), ∀ y ∈ x :: xs, xs.foldl min x ≤ y := by
  induction xs with
  | nil =>
    intro x y hy
    simp only [List.mem_singleton] at hy
    simp [hy]
  | cons a rest ih =>
    intro x y hy
    simp only [List.foldl_cons]
    rcases List.mem_cons.mp hy with h | h
    · subst h
      exact le_trans (ih (min y a) (min y a) (by simp)) (min_le_left y a)
    · rcases List.mem_cons.mp h with h' | h'
      · subst h'
        exact le_trans (ih (min x y) (min x y) (by simp)) (min_le_right x y)
      · exact ih (min x a) y (List.mem_cons_of_mem _ h')

theorem ratMean_bounds (l : List Int) (lo hi : Int) (hne : l ≠ [])
    (hlo : ∀ y ∈ l, lo ≤ y) (hhi : ∀ y ∈ l, y ≤ hi) :
    (lo : ℚ) ≤ ratMean l ∧ ratMean l ≤ (hi : ℚ) := by
  have hn : 0 < l.length := List.length_pos.mpr hne
  have hnq : (0 : ℚ) < (l.length : ℚ) := by exact_mod_cast hn
  have hs1 : l.length • lo ≤ l.sum := List.card_nsmul_le_sum l lo hlo
  have hs2 : l.sum ≤ l.length • hi := List.sum_le_card_nsmul l hi hhi
  rw [nsmul_eq_mul] at hs1 hs2
  have hq1 : (l.length : ℚ) * (lo : ℚ) ≤ (l.sum : ℚ) := by exact_mod_cast hs1
  have hq2 : (l.sum : ℚ) ≤ (l.length : ℚ) * (hi : ℚ) := by exact_mod_cast hs2
  unfold ratMean
  constructor
  · rw [le_div_iff₀ hnq]
    nlinarith
  · rw [div_le_iff₀ hnq]
    nlinarith

theorem sortedInts_getD_mem (l : List Int) (i : Nat) (hi : i < (sortedInts l).length) :
    (sortedInts l).getD i 0 ∈ l := by
  rw [List.getD_eq_getElem _ _ hi]
  exact (List.mergeSort_perm l _).mem_iff.mp (List.getElem_mem hi)

theorem medianOf_bounds (l : List Int) (lo hi : Int) (hne : l ≠ [])
    (hlo : ∀ y ∈ l, lo ≤ y) (hhi : ∀ y ∈ l, y ≤ hi) :
    (lo : ℚ) ≤ medianOf l ∧ medianOf l ≤ (hi : ℚ) := by
  have hlen : (sortedInts l).length = l.length := List.length_mergeSort l
  have hn : 0 < (sortedInts l).length := by
    rw [hlen]; exact List.length_pos.mpr hne
  have hmid : (sortedInts l).length / 2 < (sortedInts l).length := Nat.div_lt_self hn (by norm_num)
  have hmid' : (sortedInts l).length / 2 - 1 < (sortedInts l).length := by omega
  have h1 := sortedInts_getD_mem l ((sortedInts l).length / 2) hmid
  have h2 := sortedInts_getD_mem l ((sortedInts l).length / 2 - 1) hmid'
  have b1lo : (lo : ℚ) ≤ ((sortedInts l).getD ((sortedInts l).length / 2) 0 : Int) := by
    exact_mod_cast hlo _ h1
  have b1hi : (((sortedInts l).getD ((sortedInts l).length / 2) 0 : Int) : ℚ) ≤ (hi : ℚ) := by
    exact_mod_cast hhi _ h1
  have b2lo : (lo : ℚ) ≤ ((sortedInts l).getD ((sortedInts l).length / 2 - 1) 0 : Int) := by
    exact_mod_cast hlo _ h2
  have b2hi : (((sortedInts l).getD ((sortedInts l).length / 2 - 1) 0 : Int) : ℚ) ≤ (hi : ℚ) := by
    exact_mod_cast hhi _ h2
  unfold medianOf
  by_cases hpar : (sortedInts l).length % 2 = 1
  · simp only [hpar, if_pos rfl]
    exact ⟨b1lo, b1hi⟩
  · simp only [if_neg hpar]
    constructor
    · linarith
    · linarith

/-- Claim C3: for every non-empty integer sequence, the product-price
statistics block satisfies `min <= median <= max` and the mean lies
within `[min, max]` (exact-arithmetic model of the `numpy` statistics). -/
theorem price_stats_bounds (v : List Int) (st : PriceStats)
    (h : reduceStats v = some st) :
    (st.min : ℚ) ≤ st.median ∧ st.median ≤ (st.max : ℚ) ∧
    (st.min : ℚ) ≤ st.mean ∧ st.mean ≤ (st.max : ℚ) := by
  match v with
  | [] => simp [reduceStats] at h
  | x :: xs =>
    simp only [reduceStats, Option.some_inj] at h
    subst h
    simp only []
    have hne : x :: xs ≠ [] := by simp
    have hlo : ∀ y ∈ x :: xs, xs.foldl min x ≤ y := foldl_min_le_mem xs x
    have hhi : ∀ y ∈ x :: xs, y ≤ xs.foldl max x := mem_le_foldl_max xs x
    have hmean := ratMean_bounds (x :: xs) _ _ hne hlo hhi
    have hmed := medianOf_bounds (x :: xs) _ _ hne hlo hhi
    exact ⟨hmed.1, hmed.2, hmean.1, hmean.2⟩

/-- Witness for C3: the statistics of `[3, 1, 2]` are
mean 2, max 3, min 1, median 2, and the bounds hold there. -/
theorem price_stats_bounds_witness :
    ((1 : Int) : ℚ) ≤ (2 : ℚ) ∧ (2 : ℚ) ≤ ((3 : Int) : ℚ) ∧
    ((1 : Int) : ℚ) ≤ (2 : ℚ) ∧ (2 : ℚ) ≤ ((3 : Int) : ℚ) :=
  price_stats_bounds [3, 1, 2] ⟨2, 3, 1, 2⟩
    (by norm_num [reduceStats, ratMean, medianOf, sortedInts, List.mergeSort])

/-! ## Round-trip of canonical date strings (claim C9) -/

theorem isDigitChar_digitChar (n : Nat) (h : n < 10) : isDigitChar (digitChar n) = true := by
  interval_cases n <;> decide

theorem digitVal_digitChar (n : Nat) (h : n < 10) : digitVal (digitChar n) = n := by
  interval_cases n <;> decide

theorem digitChar_ne_dash (n : Nat) (h : n < 10) : digitChar n ≠ '-' := by
  interval_cases n <;> decide

theorem splitOnChar_of_not_mem (sep : Char) (a : List Char) (ha : sep ∉ a) :
    splitOnChar sep a = [a] := by
  induction a with
  | nil => rfl
  | cons c cs ih =>
    have hc : ¬c = sep := fun h => ha (by rw [← h]; exact List.mem_cons_self c cs)
    have hcs : sep ∉ cs := fun h => ha (List.mem_cons_of_mem _ h)
    simp [splitOnChar, hc, ih hcs]

theorem splitOnChar_append (sep : Char) (a rest : List Char) (ha : sep ∉ a) :
    splitOnChar sep (a ++ sep :: rest) = a :: splitOnChar sep rest := by
  induction a with
  | nil => simp [splitOnChar]
  | cons c cs ih =>
    have hc : ¬c = sep := fun h => ha (by rw [← h]; exact List.mem_cons_self c cs)
    have hcs : sep ∉ cs := fun h => ha (List.mem_cons_of_mem _ h)
    simp [splitOnChar, hc, ih hcs]

theorem pad2_no_dash (n : Nat) : '-' ∉ pad2 n := by
  intro hmem
  simp only [pad2, List.mem_cons, List.not_mem_nil, or_false] at hmem
  rcases hmem with h | h
  · exact digitChar_ne_dash _ (Nat.mod_lt _ (by norm_num)) h.symm
  · exact digitChar_ne_dash _ (Nat.mod_lt _ (by norm_num)) h.symm

theorem pad4_no_dash (n : Nat) : '-' ∉ pad4 n := by
  intro hmem
  simp only [pad4, List.mem_cons, List.not_mem_nil, or_false] at hmem
  rcases hmem with h | h | h | h <;>
    exact digitChar_ne_dash _ (Nat.mod_lt _ (by norm_num)) h.symm

theorem pad2_digits (n : Nat) : (pad2 n).all isDigitChar = true := by
  simp [pad2, isDigitChar_digitChar (n / 10 % 10) (Nat.mod_lt _ (by norm_num)),
    isDigitChar_digitChar (n % 10) (Nat.mod_lt _ (by norm_num))]

theorem pad4_digits (n : Nat) : (pad4 n).all isDigitChar = true := by
  simp [pad4, isDigitChar_digitChar (n / 1000 % 10) (Nat.mod_lt _ (by norm_num)),
    isDigitChar_digitChar (n / 100 % 10) (Nat.mod_lt _ (by norm_num)),
    isDigitChar_digitChar (n / 10 % 10) (Nat.mod_lt _ (by norm_num)),
    isDigitChar_digitChar (n % 10) (Nat.mod_lt _ (by norm_num))]

theorem fieldNat_pad2 (n : Nat) (h : n < 100) : fieldNat (pad2 n) = n := by
  simp only [fieldNat, pad2, List.foldl_cons, List.foldl_nil]
  rw [digitVal_digitChar _ (Nat.mod_lt _ (by norm_num)),
    digitVal_digitChar _ (Nat.mod_lt _ (by norm_num))]
  omega

theorem fieldNat_pad4 (n : Nat) (h : n < 10000) : fieldNat (pad4 n) = n := by
  simp only [fieldNat, pad4, List.foldl_cons, List.foldl_nil]
  rw [digitVal_digitChar _ (Nat.mod_lt _ (by norm_num)),
    digitVal_digitChar _ (Nat.mod_lt _ (by norm_num)),
    digitVal_digitChar _ (Nat.mod_lt _ (by norm_num)),
    digitVal_digitChar _ (Nat.mod_lt _ (by norm_num))]
  omega

theorem daysInMonth_le_31 (y m : Nat) : daysInMonth y m ≤ 31 := by
  unfold daysInMonth
  split
  · split <;> norm_num
  · split <;> norm_num

theorem tryFormat_iso_formatISO (y m d : Nat) (h : validDate y m d = true) :
    tryFormat DateFmt.iso (formatISO ⟨y, m, d⟩) = some ⟨y, m, d⟩ := by
  simp only [validDate, Bool.and_eq_true, decide_eq_true_eq] at h
  obtain ⟨⟨⟨⟨⟨hy1, hy2⟩, hm1⟩, hm2⟩, hd1⟩, hd2⟩ := h
  have hsplit : splitOnChar '-' (formatISO ⟨y, m, d⟩).toList = [pad4 y, pad2 m, pad2 d] := by
    show splitOnChar '-' (pad4 y ++ '-' :: (pad2 m ++ '-' :: pad2 d)) = _
    rw [splitOnChar_append '-' (pad4 y) _ (pad4_no_dash y),
        splitOnChar_append '-' (pad2 m) _ (pad2_no_dash m),
        splitOnChar_of_not_mem '-' (pad2 d) (pad2_no_dash d)]
  have hy100 : y < 10000 := by omega
  have hm100 : m < 100 := by omega
  have hd31 : d ≤ 31 := le_trans hd2 (daysInMonth_le_31 y m)
  have hd100 : d < 100 := by omega
  have hlen4 : (pad4 y).length = 4 := rfl
  have hlenm : (pad2 m).length = 2 := rfl
  have hlend : (pad2 d).length = 2 := rfl
  have hyf : isYearField (pad4 y) = true := by
    simp [isYearField, hlen4, pad4_digits y]
  have hmf : isMonthField (pad2 m) = true := by
    simp [isMonthField, hlenm, pad2_digits m, fieldNat_pad2 m hm100, hm1, hm2]
  have hdf : isDayField (pad2 d) = true := by
    simp [isDayField, hlend, pad2_digits d, fieldNat_pad2 d hd100, hd1, hd31]
  simp only [tryFormat, hsplit, hyf, hmf, hdf, Bool.and_self, if_pos,
    fieldNat_pad4 y hy100, fieldNat_pad2 m hm100, fieldNat_pad2 d hd100]
  simp [mkValidDate, hy1, hy2, hm1, hm2, hd1, hd2]

/-- Claim C9: for every valid date string in canonical zero-padded
`YYYY-MM-DD` form, parsing and then formatting back to `YYYY-MM-DD`
reproduces the string exactly. -/
theorem canonical_iso_roundtrip (s : String) (h : CanonicalISO s) :
    (parse_date s).map formatISO = some s := by
  obtain ⟨y, m, d, hv, rfl⟩ := h
  have hiso := tryFormat_iso_formatISO y m d hv
  simp [parse_date, parseFirst, hiso]

/-- Witness for C9: the string `"2024-01-05"` round-trips. -/
theorem canonical_iso_roundtrip_witness :
    (parse_date "2024-01-05").map formatISO = some "2024-01-05" :=
  canonical_iso_roundtrip "2024-01-05" ⟨2024, 1, 5, by decide, by decide⟩

/-! ## Weekly sales spec (claim C2) -/

theorem weeklyAmounts_of_all_parse (week_start week_end tod : Nat) (sales_data : List Sale)
    (h : ∀ s ∈ sales_data, (parse_date s.date).isSome) :
    weeklyAmounts week_start week_end tod sales_data =
      some (keptAmounts week_start week_end tod sales_data) := by
  induction sales_data with
  | nil => simp [weeklyAmounts, keptAmounts]
  | cons a rest ih =>
    have ha : (parse_date a.date).isSome := h a (List.mem_cons_self a rest)
    obtain ⟨d, hd⟩ := Option.isSome_iff_exists.mp ha
    have hrest : ∀ s ∈ rest, (parse_date s.date).isSome :=
      fun s hs => h s (List.mem_cons_of_mem _ hs)
    simp only [weeklyAmounts, hd, ih hrest]
    cases hw : dtLe week_start tod (toOrdinal d) 0 && dtLe (toOrdinal d) 0 week_end tod <;>
      simp [keptAmounts, List.filter_cons, inWindow, hd, hw]

/-- Counterexample for C2 as stated: `datetime.today()` carries the
current time of day, which `week_start` inherits, while parsed sale
dates are midnights.  With reference Wednesday 2024-01-03 (ordinal
738888) at any time after midnight (here time of day 3600), the sale
dated on the week's Monday 2024-01-01 is before `week_start` and is
dropped: the total is 0, not the 10 the claimed inclusive day window
`[week_start, week_end]` would give. -/
theorem weekly_sales_monday_boundary_dropped :
    (analyze_weekly_sales 738888 3600 [⟨"1", "1", 10, "2024-01-01"⟩]).map Prod.fst
        = some 0 ∧
    (analyze_weekly_sales 738888 3600 [⟨"1", "1", 10, "2024-01-01"⟩]).map Prod.fst
        ≠ some 10 := by
  decide

/-- Claim C2 (amended): for a reference datetime — date ordinal plus
time of day, as produced by `datetime.today()` — and a snapshot in
which every date string parses, the weekly analysis uses
`week_start = refDay - weekday(refDay)` (Monday = 0; the first conjunct
shows the natural subtraction does not truncate) and
`week_end = week_start + 6`, both carrying the reference's time of day;
it keeps exactly the sales whose parsed midnight date lies between
them, which by the last conjunct means: strictly after the Monday, or
on the Monday only when the run is at exactly midnight, and at most the
Sunday (the upper day bound stays inclusive).  It returns the sum of
the kept amounts together with the arithmetic mean of the kept amounts
(0 if none are kept) — the mean of the matches, not total/7. -/
theorem weekly_sales_spec (refDay tod : Nat) (sales_data : List Sale)
    (href : 1 ≤ refDay) (hp : ∀ s ∈ sales_data, (parse_date s.date).isSome) :
    weekdayOfOrdinal refDay + (refDay - weekdayOfOrdinal refDay) = refDay ∧
    analyze_weekly_sales refDay tod sales_data =
      some ((keptAmounts (refDay - weekdayOfOrdinal refDay)
              (refDay - weekdayOfOrdinal refDay + 6) tod sales_data).sum,
        if keptAmounts (refDay - weekdayOfOrdinal refDay)
            (refDay - weekdayOfOrdinal refDay + 6) tod sales_data = [] then 0
        else ratMean (keptAmounts (refDay - weekdayOfOrdinal refDay)
            (refDay - weekdayOfOrdinal refDay + 6) tod sales_data)) ∧
    ∀ s ∈ sales_data, ∀ d, parse_date s.date = some d →
      (inWindow (refDay - weekdayOfOrdinal refDay)
          (refDay - weekdayOfOrdinal refDay + 6) tod s = true ↔
        (refDay - weekdayOfOrdinal refDay < toOrdinal d ∨
            (toOrdinal d = refDay - weekdayOfOrdinal refDay ∧ tod = 0)) ∧
          toOrdinal d ≤ refDay - weekdayOfOrdinal refDay + 6) := by
  refine ⟨?_, ?_, ?_⟩
  · simp only [weekdayOfOrdinal]
    omega
  · simp only [analyze_weekly_sales,
      weeklyAmounts_of_all_parse (refDay - weekdayOfOrdinal refDay)
        (refDay - weekdayOfOrdinal refDay + 6) tod sales_data hp]
    simp [List.isEmpty_iff]
  · intro s hs d hd
    simp only [inWindow, hd, dtLe, Bool.and_eq_true, Bool.or_eq_true,
      decide_eq_true_eq]
    omega

/-- Witness for C2 (amended): reference date 2024-01-03 (a Wednesday,
ordinal 738888) at time of day 3600; sales fall on the Monday (dropped
by the time-of-day boundary), inside the week (one in slash format), on
the Sunday, and just outside on both sides. -/
theorem weekly_sales_spec_witness :
    analyze_weekly_sales 738888 3600
        [⟨"1", "1", 10, "2024-01-01"⟩, ⟨"1", "1", 20, "01/05/2024"⟩,
         ⟨"1", "1", 30, "2024-01-07"⟩, ⟨"1", "1", 40, "2023-12-31"⟩,
         ⟨"1", "1", 50, "2024-01-08"⟩] =
      some ((keptAmounts (738888 - weekdayOfOrdinal 738888)
              (738888 - weekdayOfOrdinal 738888 + 6) 3600
              [⟨"1", "1", 10, "2024-01-01"⟩, ⟨"1", "1", 20, "01/05/2024"⟩,
               ⟨"1", "1", 30, "2024-01-07"⟩, ⟨"1", "1", 40, "2023-12-31"⟩,
               ⟨"1", "1", 50, "2024-01-08"⟩]).sum,
        if keptAmounts (738888 - weekdayOfOrdinal 738888)
            (738888 - weekdayOfOrdinal 738888 + 6) 3600
            [⟨"1", "1", 10, "2024-01-01"⟩, ⟨"1", "1", 20, "01/05/2024"⟩,
             ⟨"1", "1", 30, "2024-01-07"⟩, ⟨"1", "1", 40, "2023-12-31"⟩,
             ⟨"1", "1", 50, "2024-01-08"⟩] = [] then 0
        else ratMean (keptAmounts (738888 - weekdayOfOrdinal 738888)
            (738888 - weekdayOfOrdinal 738888 + 6) 3600
            [⟨"1", "1", 10, "2024-01-01"⟩, ⟨"1", "1", 20, "01/05/2024"⟩,
             ⟨"1", "1", 30, "2024-01-07"⟩, ⟨"1", "1", 40, "2023-12-31"⟩,
             ⟨"1", "1", 50, "2024-01-08"⟩])) :=
  (weekly_sales_spec 738888 3600
    [⟨"1", "1", 10, "2024-01-01"⟩, ⟨"1", "1", 20, "01/05/2024"⟩,
     ⟨"1", "1", 30, "2024-01-07"⟩, ⟨"1", "1", 40, "2023-12-31"⟩,
     ⟨"1", "1", 50, "2024-01-08"⟩] (by decide) (by decide)).2.1

/-! ## Dictionary lemmas (claims C1 and C10) -/

theorem dictLookup_dictSet (m : List (String × Int)) (k : String) (v : Int) (q : String) :
    dictLookup (dictSet m k v) q = if q = k then some v else dictLookup m q := by
  induction m with
  | nil =>
    rcases eq_or_ne q k with h | h
    · subst h; simp [dictSet, dictLookup]
    · simp [dictSet, dictLookup, h, h.symm]
  | cons p rest ih =>
    obtain ⟨k', v'⟩ := p
    rcases eq_or_ne k' k with hk | hk
    · subst hk
      rcases eq_or_ne q k' with hq | hq
      · subst hq; simp [dictSet, dictLookup]
      · simp [dictSet, dictLookup, hq, hq.symm]
    · rcases eq_or_ne q k' with hq | hq
      · subst hq
        simp [dictSet, dictLookup, hk, hk.symm]
      · simp [dictSet, dictLookup, hk, hq, hq.symm, ih]

theorem dictAdd_none_iff (m : List (String × Int)) (k : String) (a : Int) :
    dictAdd m k a = none ↔ dictLookup m k = none := by
  induction m with
  | nil => simp [dictAdd, dictLookup]
  | cons p rest ih =>
    obtain ⟨k', v'⟩ := p
    rcases eq_or_ne k' k with h | h <;>
      simp [dictAdd, dictLookup, h, Option.map_eq_none', ih]

theorem dictAdd_some_lookup (m : List (String × Int)) (k : String) (a : Int)
    (m' : List (String × Int)) (h : dictAdd m k a = some m') (q : String) :
    dictLookup m' q =
      if q = k then (dictLookup m k).map (fun v => v + a) else dictLookup m q := by
  induction m generalizing m' with
  | nil => simp [dictAdd] at h
  | cons p rest ih =>
    obtain ⟨k', v'⟩ := p
    rcases eq_or_ne k' k with hk | hk
    · subst hk
      simp [dictAdd] at h
      subst h
      rcases eq_or_ne q k' with hq | hq
      · subst hq; simp [dictLookup]
      · simp [dictLookup, hq, hq.symm]
    · simp only [dictAdd, if_neg hk] at h
      cases hrec : dictAdd rest k a with
      | none => rw [hrec] at h; simp at h
      | some r =>
        rw [hrec] at h
        simp only [Option.map_some', Option.some_inj] at h
        subst h
        have hlk := ih r hrec
        rcases eq_or_ne q k' with hq | hq
        · have hqk : q ≠ k := by rw [hq]; exact hk
          simp [dictLookup, hq.symm, hqk]
        · simp [dictLookup, hq.symm, hlk, hk]

theorem dictLookup_seed_foldl (branch_data : List Branch) (m : List (String × Int))
    (k : String) :
    dictLookup (branch_data.foldl (fun m b => dictSet m b.branch_id 0) m) k =
      if k ∈ branch_data.map Branch.branch_id then some 0 else dictLookup m k := by
  induction branch_data generalizing m with
  | nil => simp
  | cons b rest ih =>
    simp only [List.foldl_cons, ih, dictLookup_dictSet, List.map_cons, List.mem_cons]
    by_cases h1 : k ∈ rest.map Branch.branch_id <;>
      by_cases h2 : k = b.branch_id <;> simp [h1, h2]

theorem dictLookup_seedSummary (branch_data : List Branch) (k : String) :
    dictLookup (seedSummary branch_data) k =
      if k ∈ branch_data.map Branch.branch_id then some 0 else none := by
  unfold seedSummary
  rw [dictLookup_seed_foldl]
  rfl

theorem buildSummary_ok_lookup (sales_data : List Sale) :
    ∀ m : List (String × Int),
      (∀ s ∈ sales_data, (dictLookup m s.branch_id).isSome) →
      ∃ m', buildSummary m sales_data = .ok m' ∧
        ∀ k, dictLookup m' k =
          (dictLookup m k).map (fun v => v + branchTotal k sales_data) := by
  induction sales_data with
  | nil =>
    intro m _
    refine ⟨m, rfl, fun k => ?_⟩
    cases dictLookup m k <;> simp [branchTotal]
  | cons s rest ih =>
    intro m hm
    have hs0 : (dictLookup m s.branch_id).isSome := hm s (List.mem_cons_self s rest)
    obtain ⟨m1, hm1⟩ : ∃ m1, dictAdd m s.branch_id s.amount = some m1 := by
      cases hadd : dictAdd m s.branch_id s.amount with
      | none =>
        rw [dictAdd_none_iff] at hadd
        rw [hadd] at hs0
        simp at hs0
      | some r => exact ⟨r, rfl⟩
    have hlk := dictAdd_some_lookup m s.branch_id s.amount m1 hm1
    have hrest : ∀ s' ∈ rest, (dictLookup m1 s'.branch_id).isSome := by
      intro s' hs'
      rw [hlk s'.branch_id]
      by_cases hq : s'.branch_id = s.branch_id
      · rw [if_pos hq]
        obtain ⟨v, hv⟩ := Option.isSome_iff_exists.mp hs0
        simp [hv]
      · rw [if_neg hq]
        exact hm s' (List.mem_cons_of_mem _ hs')
    obtain ⟨m', hb, hl⟩ := ih m1 hrest
    refine ⟨m', by simp [buildSummary, hm1, hb], fun k => ?_⟩
    rw [hl k, hlk k]
    by_cases hq : k = s.branch_id
    · rw [if_pos hq, ← hq]
      have hf : branchTotal k (s :: rest) = s.amount + branchTotal k rest := by
        simp [branchTotal, List.filter_cons, hq]
      rw [hf]
      cases dictLookup m k <;> simp [add_assoc]
    · rw [if_neg hq]
      have hf : branchTotal k (s :: rest) = branchTotal k rest := by
        have hb2 : (s.branch_id == k) = false := by
          simp only [beq_eq_false_iff_ne, ne_eq]
          exact fun hh => hq hh.symm
        simp [branchTotal, List.filter_cons, hb2]
      rw [hf]

/-- Claim C1 (amended): provided every sale's branch id belongs to the
registered branch set and at least one branch is registered, the
all-branches report succeeds and its mapping contains exactly the
registered branch ids, each bound to the sum of the matching sale
amounts (0 if none); a sale with an unregistered branch id instead
raises a key-lookup error (see the counterexample). -/
theorem all_branches_summary_spec (branch_data : List Branch) (sales_data : List Sale)
    (hb : branch_data ≠ [])
    (hs : ∀ s ∈ sales_data, s.branch_id ∈ branch_data.map Branch.branch_id) :
    (analyze_all_branches_monthly_sales branch_data sales_data).isOk = true ∧
    ∀ k, (analyze_all_branches_monthly_sales branch_data sales_data).lookup k =
      if k ∈ branch_data.map Branch.branch_id
      then some (branchTotal k sales_data) else none := by
  have hpre : ∀ s ∈ sales_data, (dictLookup (seedSummary branch_data) s.branch_id).isSome := by
    intro s hsmem
    rw [dictLookup_seedSummary]
    simp [hs s hsmem]
  obtain ⟨m', hbuild, hl⟩ := buildSummary_ok_lookup sales_data (seedSummary branch_data) hpre
  have hlk : ∀ k, dictLookup m' k =
      if k ∈ branch_data.map Branch.branch_id
      then some (branchTotal k sales_data) else none := by
    intro k
    rw [hl k, dictLookup_seedSummary]
    by_cases h : k ∈ branch_data.map Branch.branch_id <;> simp [h]
  obtain ⟨b0, rest, rfl⟩ : ∃ b0 rest, branch_data = b0 :: rest := by
    cases branch_data with
    | nil => exact absurd rfl hb
    | cons b0 rest => exact ⟨b0, rest, rfl⟩
  have hm'ne : m' ≠ [] := by
    intro hnil
    have := hlk b0.branch_id
    rw [hnil] at this
    simp [dictLookup] at this
  unfold analyze_all_branches_monthly_sales
  rw [hbuild]
  simp only [List.isEmpty_iff, hm'ne, if_neg]
  exact ⟨rfl, fun k => hlk k⟩

/-- Witness for C1 (amended): the spec scenario with one branch and two
matching sales produces a successful report. -/
theorem all_branches_summary_spec_witness :
    (analyze_all_branches_monthly_sales [⟨"1", "Branch A", "Location A"⟩]
      [⟨"1", "1", 100, "2024-01-05"⟩, ⟨"1", "2", 50, "2024-01-06"⟩]).isOk = true :=
  (all_branches_summary_spec [⟨"1", "Branch A", "Location A"⟩]
    [⟨"1", "1", 100, "2024-01-05"⟩, ⟨"1", "2", 50, "2024-01-06"⟩]
    (by decide) (by decide)).1

/-- Counterexample for C1 as stated: a sale whose branch id is not in
the registered branch set is not silently dropped; the computation
raises a key-lookup error instead of returning the seeded mapping. -/
theorem all_branches_unknown_branch_raises :
    analyze_all_branches_monthly_sales [⟨"B1", "A", "X"⟩]
        [⟨"B2", "P1", 10, "2024-01-01"⟩] = AllBranchesOutcome.keyError "B2" ∧
    analyze_all_branches_monthly_sales [⟨"B1", "A", "X"⟩]
        [⟨"B2", "P1", 10, "2024-01-01"⟩] ≠ AllBranchesOutcome.ok [("B1", 0)] := by
  decide
